import Mathlib

/-! simple-go-service: the in-memory product handler and the JWT expiry

A shallow embedding of `basic-rest/server.go` (the product store, its HTTP
dispatcher and helpers) and of `GenerateJWT` of `jwt-auth/main.go`.

* One handler call is a function from the store and the request to the response and
  the new store (`serve`).
* Concurrent calls of `post` are goroutines whose statements interleave
  (`World.step`, `World.run`).
* Library behaviour the handlers rely on is modelled next to the code that uses it:
  `strings.Split`, `strconv.Atoi`, `encoding/json` marshalling at the level of JSON
  documents, the `net/http` response writer, `sync.Mutex`, and `time.Time`
  arithmetic. `json.Unmarshal` and the jwt signature are parameters.
-/

namespace SimpleGoService

/-! ## Data model -/

/-- A Go `float64`, as its IEEE-754 binary64 bit pattern: bit 63 is the sign, bits
62..52 the biased exponent, bits 51..0 the fraction. -/
structure Float64 where
  bits : Fin (2 ^ 64)
deriving DecidableEq

/-- The Go comparison `x == 0.0`: true exactly for `+0` and `-0`. -/
def Float64.isZero (x : Float64) : Bool :=
  x.bits.val % 2 ^ 63 == 0

/-- The biased exponent field. -/
def Float64.exponent (x : Float64) : Nat :=
  (x.bits.val / 2 ^ 52) % 2 ^ 11

/-- Neither an infinity nor a NaN (`!math.IsInf(f, 0) && !math.IsNaN(f)`). -/
def Float64.isFinite (x : Float64) : Bool :=
  x.exponent != 2047

/-- The constant `0.0`, the zero value of `float64`. -/
def Float64.zero : Float64 := ⟨0⟩

/-- The constant `20.00`. -/
def f64_20 : Float64 := ⟨0x4034000000000000⟩

/-- The constant `25.00`. -/
def f64_25 : Float64 := ⟨0x4039000000000000⟩

/-- The constant `42`. -/
def f64_42 : Float64 := ⟨0x4045000000000000⟩

/-- The constant `50.00`. -/
def f64_50 : Float64 := ⟨0x4049000000000000⟩

/-- `type Product struct { Name string; Price float64 }`. -/
structure Product where
  Name : String
  Price : Float64
deriving DecidableEq

/-- The zero value of `Product` (what `var product Product` holds). -/
def Product.zeroValue : Product := ⟨"", Float64.zero⟩

/-- `type Products []Product`. -/
abbrev Products := List Product

/-- `type ProductHandler struct { sync.Mutex; products Products }`. The mutex is
left out of the sequential model: one handler call is one atomic transition. -/
structure ProductHandler where
  products : Products
deriving DecidableEq

/-- `newProductHandler`: the three seeded products. -/
def newProductHandler : ProductHandler :=
  { products := [⟨"Shoes", f64_25⟩, ⟨"Webcam", f64_50⟩, ⟨"Mic", f64_20⟩] }

/-! ## Library behaviour used by the handlers -/

deriving instance DecidableEq for Except

/-- `strings.Split(s, "/")`: the pieces of `s` between slashes; a string with `n`
slashes gives `n + 1` pieces, the empty string gives one empty piece. -/
def splitSlash : List Char → List (List Char)
  | [] => [[]]
  | c :: cs =>
    if c = '/' then [] :: splitSlash cs
    else
      match splitSlash cs with
      | [] => [[c]]
      | p :: ps => (c :: p) :: ps

/-- A decimal digit `'0'..'9'`. -/
def isDecDigit (c : Char) : Bool :=
  48 ≤ c.toNat && c.toNat ≤ 57

/-- The number a string of decimal digits denotes. -/
def decValue (ds : List Char) : Nat :=
  ds.foldl (fun n c => n * 10 + (c.toNat - 48)) 0

/-- `strconv.Atoi` on a 64-bit platform: an optional sign, then one or more decimal
digits, denoting a value that fits `int`; anything else is an error. -/
def Atoi (s : List Char) : Except String Int :=
  match s with
  | [] => .error "invalid syntax"
  | c :: rest =>
    let neg := c = '-'
    let ds := if c = '-' ∨ c = '+' then rest else s
    if ds = [] then .error "invalid syntax"
    else if ds.all isDecDigit then
      let un := decValue ds
      if ¬ neg ∧ 2 ^ 63 ≤ un then .error "value out of range"
      else if neg ∧ 2 ^ 63 < un then .error "value out of range"
      else .ok (if neg then - (un : Int) else (un : Int))
    else .error "invalid syntax"

/-- The JSON scalars this program emits. -/
inductive JsonScalar where
  | str (s : String)
  | num (x : Float64)
deriving DecidableEq

/-- The JSON documents this program emits: a scalar, an object with scalar members,
or an array of such objects. -/
inductive JsonValue where
  | scalar (v : JsonScalar)
  | object (members : List (String × JsonScalar))
  | array (items : List (List (String × JsonScalar)))
deriving DecidableEq

/-- The values passed as `data interface{}` to `respondWithJSON`. -/
inductive Data where
  | products (ps : Products)
  | product (p : Product)
  | string (s : String)
  | stringMap1 (key value : String)
deriving DecidableEq

/-- The members `encoding/json` writes for a `Product`, by its struct tags. -/
def Product.members (p : Product) : List (String × JsonScalar) :=
  [("name", .str p.Name), ("price", .num p.Price)]

/-- `json.Marshal`: the JSON document of a value, or `UnsupportedValueError` when
a float is an infinity or a NaN. A string marshals to a JSON string (the empty
string to the two quote characters), never to an empty text. The slice of the
handler is never nil (seeded, appended to, resliced), so it marshals to an array. -/
def jsonMarshal : Data → Except String JsonValue
  | .products ps =>
    if ps.all (fun p => p.Price.isFinite) then .ok (.array (ps.map Product.members))
    else .error "json: unsupported value"
  | .product p =>
    if p.Price.isFinite then .ok (.object p.members)
    else .error "json: unsupported value"
  | .string s => .ok (.scalar (.str s))
  | .stringMap1 k v => .ok (.object [(k, .str v)])

/-- The `http.ResponseWriter` of a `net/http` server, as what the client receives:
the header, the status line once written, and the JSON texts that made it into the
body (none: a body of zero bytes). `refused` keeps the texts a `Write` call was
given and turned down with `ErrBodyNotAllowed`; they are not part of the response. -/
structure ResponseWriter where
  reqMethod : String
  header : List (String × String)
  wroteHeader : Bool
  status : Nat
  body : List JsonValue
  refused : List JsonValue
deriving DecidableEq

/-- The writer a handler is called with for a request of the given method. -/
def ResponseWriter.new (method : String) : ResponseWriter :=
  { reqMethod := method, header := [], wroteHeader := false, status := 0, body := [],
    refused := [] }

/-- `w.Header().Add(key, value)`; header keys are case-insensitive and kept here as
the handler wrote them. -/
def ResponseWriter.headerAdd (w : ResponseWriter) (key value : String) : ResponseWriter :=
  { w with header := w.header ++ [(key, value)] }

/-- `w.WriteHeader(code)`: the first call fixes the status, later calls are ignored. -/
def ResponseWriter.WriteHeader (w : ResponseWriter) (code : Nat) : ResponseWriter :=
  if w.wroteHeader then w else { w with wroteHeader := true, status := code }

/-- `bodyAllowedForStatus` of `net/http`: 1xx, 204 and 304 responses carry no body. -/
def bodyAllowedForStatus (status : Nat) : Bool :=
  if 100 ≤ status ∧ status ≤ 199 then false
  else if status = 204 then false
  else if status = 304 then false
  else true

/-- `w.Write(response)`, where `response` is `none` for a nil slice and `some v` for
the text of `v`. An implicit `WriteHeader(200)` comes first when no header was
written; a nil slice writes nothing; when the status allows no body the bytes are
refused (`ErrBodyNotAllowed`), and the reply to a `HEAD` request never has a body. -/
def ResponseWriter.Write (w : ResponseWriter) (response : Option JsonValue) : ResponseWriter :=
  let w := if w.wroteHeader then w else w.WriteHeader 200
  match response with
  | none => w
  | some v =>
    if ¬ bodyAllowedForStatus w.status then { w with refused := w.refused ++ [v] }
    else if w.reqMethod = "HEAD" then w
    else { w with body := w.body ++ [v] }

/-- The parts of `*http.Request` the handlers read. -/
structure Request where
  Method : String
  /-- The value of `r.URL.String()`. -/
  URL : String
  /-- The value of `r.Header.Get("content-type")`. -/
  ContentType : String
  /-- The outcome of `ioutil.ReadAll(r.Body)`. -/
  Body : Except String String

/-! ## The handlers of `basic-rest/server.go` -/

section Handlers

/- `json.Unmarshal(body, &product)` with `product` a fresh zero-valued `Product`:
the decoded product or the decoding error. It is a parameter of the model. -/
variable (jsonUnmarshal : String → Except String Product)

/-- `respondWithJSON`: marshal (on failure the error is printed and `response` stays
nil), add the content type, write the status, write the response. -/
def respondWithJSON (w : ResponseWriter) (code : Nat) (data : Data) : ResponseWriter :=
  let response : Option JsonValue :=
    match jsonMarshal data with
    | .ok v => some v
    | .error _ => none
  let w := w.headerAdd "content-type" "application/json"
  let w := w.WriteHeader code
  w.Write response

/-- `respondWithError`: the JSON object with the single member `"error"`. -/
def respondWithError (w : ResponseWriter) (code : Nat) (msg : String) : ResponseWriter :=
  respondWithJSON w code (.stringMap1 "error" msg)

/-- `idFromUrl`: the URL must split into exactly three pieces at its slashes and
the last piece must parse as an integer. The error is always `"not found"`. -/
def idFromUrl (r : Request) : Except String Int :=
  let parts := splitSlash r.URL.toList
  if parts.length ≠ 3 then .error "not found"
  else
    match Atoi (parts.getD (parts.length - 1) []) with
    | .error _ => .error "not found"
    | .ok id => .ok id

/-- `ProductHandler.get`. -/
def ProductHandler.get (ph : ProductHandler) (w : ResponseWriter) (r : Request) :
    ResponseWriter × ProductHandler :=
  match idFromUrl r with
  | .error _ => (respondWithJSON w 200 (.products ph.products), ph)
  | .ok id =>
    if id ≥ ph.products.length ∨ id < 0 then (respondWithError w 404 "not found", ph)
    else (respondWithJSON w 200 (.product (ph.products.getD id.toNat Product.zeroValue)), ph)

/-- `ProductHandler.post`. -/
def ProductHandler.post (ph : ProductHandler) (w : ResponseWriter) (r : Request) :
    ResponseWriter × ProductHandler :=
  match r.Body with
  | .error err => (respondWithError w 500 err, ph)
  | .ok body =>
    if r.ContentType ≠ "application/json" then
      (respondWithError w 415 "content type 'application/json' required", ph)
    else
      match jsonUnmarshal body with
      | .error err => (respondWithError w 400 err, ph)
      | .ok product =>
        let products := ph.products ++ [product]
        (respondWithJSON w 201 (.product product), { ph with products := products })

/-- `ProductHandler.put`: the fields of the stored product are overwritten one by
one, each only when the decoded field is not the zero value of its type. -/
def ProductHandler.put (ph : ProductHandler) (w : ResponseWriter) (r : Request) :
    ResponseWriter × ProductHandler :=
  match idFromUrl r with
  | .error err => (respondWithError w 404 err, ph)
  | .ok id =>
    match r.Body with
    | .error err => (respondWithError w 500 err, ph)
    | .ok body =>
      if r.ContentType ≠ "application/json" then
        (respondWithError w 415 "content type 'application/json' required", ph)
      else
        match jsonUnmarshal body with
        | .error err => (respondWithError w 400 err, ph)
        | .ok product =>
          if id ≥ ph.products.length ∨ id < 0 then (respondWithError w 404 "not found", ph)
          else
            let old := ph.products.getD id.toNat Product.zeroValue
            let p1 := if product.Name ≠ "" then { old with Name := product.Name } else old
            let p2 := if ¬ product.Price.isZero then { p1 with Price := product.Price } else p1
            let products := ph.products.set id.toNat p2
            (respondWithJSON w 201 (.product p2), { ph with products := products })

/-- The slice after `a[i], a[j] = a[j], a[i]` written as in the source, with
`i = len-1` and `j = id`: both right-hand sides are read first, then `a[i]` and
`a[j]` are assigned in that order. -/
def swapAssign (a : Products) (i j : Nat) : Products :=
  let vi := a.getD j Product.zeroValue
  let vj := a.getD i Product.zeroValue
  (a.set i vi).set j vj

/-- `ProductHandler.delete`. -/
def ProductHandler.delete (ph : ProductHandler) (w : ResponseWriter) (r : Request) :
    ResponseWriter × ProductHandler :=
  match idFromUrl r with
  | .error _ => (respondWithError w 404 "not found", ph)
  | .ok id =>
    if id ≥ ph.products.length ∨ id < 0 then (respondWithError w 404 "not found", ph)
    else
      let products :=
        if id < (ph.products.length : Int) - 1 then
          swapAssign ph.products (ph.products.length - 1) id.toNat
        else ph.products
      let products := products.take (products.length - 1)
      (respondWithJSON w 204 (.string ""), { ph with products := products })

/-- `ProductHandler.ServeHTTP`: dispatch on the request method. -/
def ProductHandler.ServeHTTP (ph : ProductHandler) (w : ResponseWriter) (r : Request) :
    ResponseWriter × ProductHandler :=
  if r.Method = "GET" then ph.get w r
  else if r.Method = "POST" then ph.post jsonUnmarshal w r
  else if r.Method = "PUT" ∨ r.Method = "PATCH" then ph.put jsonUnmarshal w r
  else if r.Method = "DELETE" then ph.delete w r
  else (respondWithJSON w 405 (.string "invalid method"), ph)

/-- One request served by the `net/http` server: `ServeHTTP` on a fresh writer. -/
def serve (ph : ProductHandler) (r : Request) : ResponseWriter × ProductHandler :=
  ph.ServeHTTP jsonUnmarshal (ResponseWriter.new r.Method) r

end Handlers

/-! ## Requests used as concrete inputs -/

/-- A decoder that accepts every body as the product `("Tea", 42)`. -/
def decodeTea : String → Except String Product :=
  fun _ => .ok ⟨"Tea", f64_42⟩

/-- A request with a JSON content type and an empty body that was read in full. -/
def request (method url : String) : Request :=
  { Method := method, URL := url, ContentType := "application/json", Body := .ok "" }

/-- A decoder for bodies that carry only a price: the name stays the zero value. -/
def decodePrice (x : Float64) : String → Except String Product :=
  fun _ => .ok ⟨"", x⟩

/-! ## `jwt-auth/main.go`: the expiry claim of `GenerateJWT` -/

/-- `time.Duration`: a count of nanoseconds. -/
abbrev Duration := Int

/-- `time.Nanosecond`. -/
def Nanosecond : Duration := 1

/-- `time.Microsecond`. -/
def Microsecond : Duration := 1000 * Nanosecond

/-- `time.Millisecond`. -/
def Millisecond : Duration := 1000 * Microsecond

/-- `time.Second`. -/
def Second : Duration := 1000 * Millisecond

/-- `time.Minute`. -/
def Minute : Duration := 60 * Second

/-- A `time.Time`, as the nanoseconds elapsed since the Unix epoch. -/
structure Time where
  unixNano : Int
deriving DecidableEq

/-- `t.Add(d)`. -/
def Time.Add (t : Time) (d : Duration) : Time :=
  ⟨t.unixNano + d⟩

/-- `t.Unix()`: the whole seconds elapsed since the Unix epoch (rounded down). -/
def Time.Unix (t : Time) : Int :=
  Int.fdiv t.unixNano 1000000000

/-- The three entries `GenerateJWT` puts into the `jwt.MapClaims` of the token. -/
structure MapClaims where
  authorized : Bool
  user : String
  exp : Int
deriving DecidableEq

/-- The claims `GenerateJWT` fills in when `time.Now()` returns `now`. The untyped
constant `30` added to `time.Minute` is a `Duration` of 30 nanoseconds. -/
def GenerateJWT.claims (now : Time) : MapClaims :=
  { authorized := true
    user := "Elliot Forbes"
    exp := (now.Add (Minute + 30)).Unix }

/-- `GenerateJWT`: the claims signed with the key; `signedString` stands for
`token.SignedString(mySigningKey)` of the jwt library. -/
def GenerateJWT (signedString : MapClaims → Except String String) (now : Time) :
    Except String String :=
  match signedString (GenerateJWT.claims now) with
  | .error err => .error err
  | .ok tokenString => .ok tokenString

/-! ## Concurrent calls of `post`: goroutines interleaved at each access to the handler -/

/-- Where a goroutine running `post` stands, from `ph.Lock()` on. What `post` does
before (reading and decoding the body) touches nothing shared, so a call with a
well-formed payload arrives at `ph.Lock()` holding its decoded product. -/
inductive PostPC where
  /-- About to run `ph.Lock()`. -/
  | atLock
  /-- Holds the lock; about to read `ph.products` as the argument of `append`. -/
  | atLoad
  /-- About to assign `ph.products = append(loaded, product)`. -/
  | atStore (loaded : Products)
  /-- About to run `respondWithJSON(w, http.StatusCreated, product)`. -/
  | atRespond
  /-- Returning: about to run the deferred `ph.Unlock()`. -/
  | atUnlock
  /-- Returned. -/
  | done
deriving DecidableEq

/-- A goroutine serving one `POST`: its decoded product, its position and its writer. -/
structure Goroutine where
  product : Product
  pc : PostPC
  w : ResponseWriter
deriving DecidableEq

/-- The handler shared by the goroutines (the state of its mutex and its products)
together with the goroutines. -/
structure World where
  locked : Bool
  products : Products
  goroutines : List Goroutine
deriving DecidableEq

/-- Goroutine `i` runs its next statement, if it has one and is not blocked:
`ph.Lock()` can only run while the mutex is free. -/
def World.step (s : World) (i : Nat) : Option World :=
  match s.goroutines[i]? with
  | none => none
  | some g =>
    match g.pc with
    | .atLock =>
      if s.locked then none
      else some { s with locked := true, goroutines := s.goroutines.set i { g with pc := .atLoad } }
    | .atLoad =>
      some { s with goroutines := s.goroutines.set i { g with pc := .atStore s.products } }
    | .atStore loaded =>
      some { s with
        products := loaded ++ [g.product],
        goroutines := s.goroutines.set i { g with pc := .atRespond } }
    | .atRespond =>
      some { s with
        goroutines := s.goroutines.set i
          { g with pc := .atUnlock, w := respondWithJSON g.w 201 (.product g.product) } }
    | .atUnlock =>
      some { s with locked := false, goroutines := s.goroutines.set i { g with pc := .done } }
    | .done => none

/-- An interleaving: the goroutines take steps in the order of the schedule. The
result is `none` when the schedule asks a blocked or finished goroutine to run. -/
def World.run (s : World) : List Nat → Option World
  | [] => some s
  | i :: schedule =>
    match s.step i with
    | none => none
    | some s' => s'.run schedule

/-- The world in which one goroutine per payload is about to lock the handler. -/
def World.start (ph : ProductHandler) (payloads : List Product) : World :=
  { locked := false
    products := ph.products
    goroutines := payloads.map fun p =>
      { product := p, pc := .atLock, w := ResponseWriter.new "POST" } }

/-- Every goroutine has returned. -/
def World.allDone (s : World) : Bool :=
  s.goroutines.all fun g => g.pc = .done

/-- The goroutine is between its `ph.Lock()` and its `ph.Unlock()`. -/
def Goroutine.holdsLock (g : Goroutine) : Bool :=
  match g.pc with
  | .atLoad | .atStore _ | .atRespond | .atUnlock => true
  | .atLock | .done => false

/-- The goroutine has run its assignment to `ph.products`. -/
def Goroutine.hasAppended (g : Goroutine) : Bool :=
  match g.pc with
  | .atRespond | .atUnlock | .done => true
  | .atLock | .atLoad | .atStore _ => false

/-- The number of statements a goroutine has run. -/
def Goroutine.progress (g : Goroutine) : Nat :=
  match g.pc with
  | .atLock => 0
  | .atLoad => 1
  | .atStore _ => 2
  | .atRespond => 3
  | .atUnlock => 4
  | .done => 5

/-- The number of statements all goroutines have run. -/
def World.progress (s : World) : Nat :=
  (s.goroutines.map Goroutine.progress).sum

/-- What holds in every world reachable from `World.start ph payloads`. -/
structure World.Inv (ph : ProductHandler) (payloads : List Product) (s : World) : Prop where
  /-- The goroutines serve the payloads, in order. -/
  payloads_eq : s.goroutines.map (fun g => g.product) = payloads
  /-- The mutex is held by exactly one goroutine when locked, by none when free. -/
  holders : s.goroutines.countP Goroutine.holdsLock = if s.locked then 1 else 0
  /-- The store is the initial store followed by the products appended so far. -/
  store : ∃ l, s.products = ph.products ++ l ∧
    l.Perm ((s.goroutines.filter Goroutine.hasAppended).map fun g => g.product)
  /-- A goroutine about to assign has loaded the current store. -/
  loaded : ∀ g ∈ s.goroutines, ∀ l, g.pc = .atStore l → l = s.products
  /-- A goroutine writes its response exactly once, after its append. -/
  writer : ∀ g ∈ s.goroutines,
    g.w = if g.pc = .atUnlock ∨ g.pc = .done then
        respondWithJSON (ResponseWriter.new "POST") 201 (.product g.product)
      else ResponseWriter.new "POST"

/-- The payload `("Tea", 42)`. -/
def tea : Product := ⟨"Tea", f64_42⟩

/-- The payload `("Mug", 20)`. -/
def mug : Product := ⟨"Mug", f64_20⟩

/-- Two creates on the seeded store in which the second goroutine gets the lock first
and the first one runs after it has returned. -/
def twoCreatesSchedule : List Nat := [1, 1, 1, 1, 1, 0, 0, 0, 0, 0]

/-- The world at the end of `twoCreatesSchedule`. -/
def twoCreatesEnd : World :=
  { locked := false
    products := newProductHandler.products ++ [mug, tea]
    goroutines :=
      [{ product := tea, pc := .done,
         w := respondWithJSON (ResponseWriter.new "POST") 201 (.product tea) },
       { product := mug, pc := .done,
         w := respondWithJSON (ResponseWriter.new "POST") 201 (.product mug) }] }

/-! ## Lists: swap with the last element, then truncate -/

/-- Overwriting position `i` with the last element and cutting the last position off
leaves a permutation of the list without position `i`. -/
theorem set_last_take_perm (ps : List Product) :
    ∀ (i : Nat) (y : Product), i + 1 < ps.length → ps.getLast? = some y →
      ((ps.set i y).take (ps.length - 1)).Perm (ps.eraseIdx i) := by
  induction ps with
  | nil => intro i y h; simp at h
  | cons a t ih =>
    intro i y h hy
    have ht : t ≠ [] := by
      intro h0; subst h0; simp at h
    obtain ⟨b, t', rfl⟩ := List.exists_cons_of_ne_nil ht
    rw [List.getLast?_cons_cons] at hy
    cases i with
    | zero =>
      have hd : b :: t' = (b :: t').dropLast ++ [y] := by
        have := List.dropLast_append_getLast? y hy
        exact this.symm
      simp only [List.set_cons_zero, List.length_cons, Nat.add_sub_cancel, List.take_succ_cons,
        List.eraseIdx_cons_zero]
      have e : List.take t'.length (b :: t') = (b :: t').dropLast := by
        rw [List.dropLast_eq_take]; simp
      rw [e]
      conv_rhs => rw [hd]
      exact (List.perm_append_singleton y _).symm
    | succ k =>
      have h' : k + 1 < (b :: t').length := by simpa using h
      have := ih k y h' hy
      simp only [List.set_cons_succ, List.length_cons, Nat.add_sub_cancel, List.take_succ_cons,
        List.eraseIdx_cons_succ] at this ⊢
      exact this.cons a

theorem length_swapAssign (a : Products) (i j : Nat) : (swapAssign a i j).length = a.length := by
  simp [swapAssign]

/-- Cutting a list at `n` forgets what was stored at positions from `n` on. -/
theorem take_set_ge (l : Products) (n m : Nat) (a : Product) (h : n ≤ m) :
    (l.set m a).take n = l.take n := by
  apply List.ext_getElem?
  intro j
  rw [List.getElem?_take, List.getElem?_take]
  split
  · rw [List.getElem?_set_ne]; omega
  · rfl

/-- The store `delete` leaves, in closed form: position `i` overwritten with the last
product, then the last position cut off. -/
theorem delete_products_eq (ph : ProductHandler) (w : ResponseWriter) (r : Request) (id : Int)
    (y : Product) (hid : idFromUrl r = .ok id) (h0 : 0 ≤ id) (h1 : id < ph.products.length)
    (hy : ph.products.getLast? = some y) :
    (ph.delete w r).2.products
      = (ph.products.set id.toNat y).take (ph.products.length - 1) := by
  obtain ⟨i, rfl⟩ := Int.eq_ofNat_of_zero_le h0
  have hi : i < ph.products.length := by exact_mod_cast h1
  have hlast : ph.products.getD (ph.products.length - 1) Product.zeroValue = y := by
    rw [List.getLast?_eq_getElem?] at hy
    simp [List.getD_eq_getElem?_getD, hy]
  have hng : ¬ ((i : Int) ≥ ph.products.length ∨ (i : Int) < 0) := by omega
  simp only [ProductHandler.delete, hid, hng, if_false, Int.toNat_ofNat]
  by_cases hlt : (i : Int) < (ph.products.length : Int) - 1
  · have hne : ph.products.length - 1 ≠ i := by omega
    simp only [hlt, if_true, swapAssign, hlast, List.length_set]
    rw [List.set_comm _ _ _ hne, take_set_ge _ _ _ _ (Nat.le_refl _)]
  · have hi' : i = ph.products.length - 1 := by omega
    simp only [hlt, if_false]
    rw [take_set_ge _ _ _ _ (by omega)]

/-! ## Dispatch -/

theorem serve_delete (u : String → Except String Product) (ph : ProductHandler) (r : Request)
    (hm : r.Method = "DELETE") :
    serve u ph r = ph.delete (ResponseWriter.new "DELETE") r := by
  simp [serve, ProductHandler.ServeHTTP, hm]

/-! ## Delete -/

/-- C1: a delete with an id in range leaves a store one product shorter, whose
products are those of the old store with the product that was at position `id` taken
out once (as a permutation of the old list without that position, and as an equation
of multisets). -/
theorem delete_length_and_multiset (u : String → Except String Product) (ph : ProductHandler)
    (r : Request) (id : Int) (hm : r.Method = "DELETE") (hid : idFromUrl r = .ok id)
    (h0 : 0 ≤ id) (h1 : id < ph.products.length) :
    (serve u ph r).2.products.length = ph.products.length - 1 ∧
    (serve u ph r).2.products.Perm (ph.products.eraseIdx id.toNat) ∧
    ∀ x, ph.products[id.toNat]? = some x →
      (↑(serve u ph r).2.products : Multiset Product) = (↑ph.products : Multiset Product).erase x := by
  have hi : id.toNat < ph.products.length := by omega
  have hne : ph.products ≠ [] := by
    intro h; rw [h] at hi; simp at hi
  obtain ⟨y, hy⟩ : ∃ y, ph.products.getLast? = some y :=
    ⟨ph.products.getLast hne, List.getLast?_eq_getLast _ hne⟩
  rw [serve_delete u ph r hm, delete_products_eq ph _ r id y hid h0 h1 hy]
  have hperm : ((ph.products.set id.toNat y).take (ph.products.length - 1)).Perm
      (ph.products.eraseIdx id.toNat) := by
    by_cases hlt : id.toNat + 1 < ph.products.length
    · exact set_last_take_perm ph.products id.toNat y hlt hy
    · have e : id.toNat = ph.products.length - 1 := by omega
      rw [e, take_set_ge _ _ _ _ (Nat.le_refl _), List.eraseIdx_eq_take_drop_succ,
        List.drop_of_length_le (by omega), List.append_nil]
  refine ⟨?_, hperm, ?_⟩
  · simp [List.length_take]
  · intro x hx
    have hmem : ph.products.Perm (x :: ph.products.eraseIdx id.toNat) := by
      have hx2 : ph.products[id.toNat] = x := by
        rw [List.getElem?_eq_getElem hi] at hx
        exact Option.some.inj hx
      have hsplit : ph.products = ph.products.take id.toNat ++ x :: ph.products.drop (id.toNat + 1) := by
        rw [← hx2, List.getElem_cons_drop _ _ hi, List.take_append_drop]
      rw [List.eraseIdx_eq_take_drop_succ]
      conv_lhs => rw [hsplit]
      exact List.perm_middle
    rw [Multiset.coe_eq_coe.mpr hperm, Multiset.coe_eq_coe.mpr hmem, ← Multiset.cons_coe,
      Multiset.erase_cons_head]

/-- C1, on the seeded store: deleting id 1. -/
theorem delete_length_and_multiset_witness :
    (serve decodeTea newProductHandler (request "DELETE" "/products/1")).2.products.length
        = newProductHandler.products.length - 1 ∧
    (serve decodeTea newProductHandler (request "DELETE" "/products/1")).2.products.Perm
        (newProductHandler.products.eraseIdx (1 : Int).toNat) ∧
    ∀ x, newProductHandler.products[(1 : Int).toNat]? = some x →
      (↑(serve decodeTea newProductHandler (request "DELETE" "/products/1")).2.products :
          Multiset Product) = (↑newProductHandler.products : Multiset Product).erase x :=
  delete_length_and_multiset decodeTea newProductHandler (request "DELETE" "/products/1") 1
    (by decide) (by decide) (by decide) (by decide)

/-- C2: a delete with an id in range swaps with the last product and truncates: the
new store is one shorter, position `id` (when it is not the last position) holds the
product that was last, and every other remaining position holds what it held. -/
theorem delete_swap_with_last_then_truncate (u : String → Except String Product)
    (ph : ProductHandler) (r : Request) (id : Int) (hm : r.Method = "DELETE")
    (hid : idFromUrl r = .ok id) (h0 : 0 ≤ id) (h1 : id < ph.products.length) :
    (serve u ph r).2.products.length = ph.products.length - 1 ∧
    (id.toNat < ph.products.length - 1 →
      (serve u ph r).2.products[id.toNat]? = ph.products[ph.products.length - 1]?) ∧
    ∀ j, j < ph.products.length - 1 → j ≠ id.toNat →
      (serve u ph r).2.products[j]? = ph.products[j]? := by
  have hi : id.toNat < ph.products.length := by omega
  have hne : ph.products ≠ [] := by
    intro h; rw [h] at hi; simp at hi
  obtain ⟨y, hy⟩ : ∃ y, ph.products.getLast? = some y :=
    ⟨ph.products.getLast hne, List.getLast?_eq_getLast _ hne⟩
  rw [serve_delete u ph r hm, delete_products_eq ph _ r id y hid h0 h1 hy]
  refine ⟨by simp [List.length_take], ?_, ?_⟩
  · intro hlt
    rw [List.getElem?_take, if_pos hlt, List.getElem?_set_self hi, ← hy,
      List.getLast?_eq_getElem?]
  · intro j hj hji
    rw [List.getElem?_take, if_pos hj, List.getElem?_set_ne (Ne.symm hji)]

/-- C2, on the seeded store: deleting id 0 leaves exactly `[(Mic,20), (Webcam,50)]`. -/
theorem delete_swap_with_last_then_truncate_witness :
    (serve decodeTea newProductHandler (request "DELETE" "/products/0")).2.products
        = [⟨"Mic", f64_20⟩, ⟨"Webcam", f64_50⟩] ∧
    ((serve decodeTea newProductHandler (request "DELETE" "/products/0")).2.products.length
        = newProductHandler.products.length - 1 ∧
    ((0 : Int).toNat < newProductHandler.products.length - 1 →
      (serve decodeTea newProductHandler (request "DELETE" "/products/0")).2.products[(0 : Int).toNat]?
        = newProductHandler.products[newProductHandler.products.length - 1]?) ∧
    ∀ j, j < newProductHandler.products.length - 1 → j ≠ (0 : Int).toNat →
      (serve decodeTea newProductHandler (request "DELETE" "/products/0")).2.products[j]?
        = newProductHandler.products[j]?) :=
  ⟨by decide,
    delete_swap_with_last_then_truncate decodeTea newProductHandler
      (request "DELETE" "/products/0") 0 (by decide) (by decide) (by decide) (by decide)⟩

/-! ## Responses on a fresh writer -/

theorem respondWithJSON_status (m : String) (code : Nat) (data : Data) :
    (respondWithJSON (ResponseWriter.new m) code data).status = code := by
  simp only [respondWithJSON, ResponseWriter.Write, ResponseWriter.WriteHeader,
    ResponseWriter.headerAdd, ResponseWriter.new]
  cases jsonMarshal data with
  | error e => simp
  | ok v => simp; split_ifs <;> rfl

theorem respondWithJSON_body (m : String) (code : Nat) (data : Data) (v : JsonValue)
    (hv : jsonMarshal data = .ok v) (hc : bodyAllowedForStatus code = true) (hm : m ≠ "HEAD") :
    (respondWithJSON (ResponseWriter.new m) code data).body = [v] := by
  simp [respondWithJSON, ResponseWriter.Write, ResponseWriter.WriteHeader,
    ResponseWriter.headerAdd, ResponseWriter.new, hv, hc, hm]

theorem respondWithJSON_refused (m : String) (code : Nat) (data : Data) (v : JsonValue)
    (hv : jsonMarshal data = .ok v) (hc : bodyAllowedForStatus code = false) :
    (respondWithJSON (ResponseWriter.new m) code data).body = [] ∧
    (respondWithJSON (ResponseWriter.new m) code data).refused = [v] := by
  simp [respondWithJSON, ResponseWriter.Write, ResponseWriter.WriteHeader,
    ResponseWriter.headerAdd, ResponseWriter.new, hv, hc]

theorem respondWithError_body (m : String) (code : Nat) (msg : String)
    (hc : bodyAllowedForStatus code = true) (hm : m ≠ "HEAD") :
    (respondWithError (ResponseWriter.new m) code msg).body
      = [.object [("error", .str msg)]] :=
  respondWithJSON_body m code _ _ rfl hc hm


theorem serve_get (u : String → Except String Product) (ph : ProductHandler) (r : Request)
    (hm : r.Method = "GET") :
    serve u ph r = ph.get (ResponseWriter.new "GET") r := by
  simp [serve, ProductHandler.ServeHTTP, hm]

theorem serve_post (u : String → Except String Product) (ph : ProductHandler) (r : Request)
    (hm : r.Method = "POST") :
    serve u ph r = ph.post u (ResponseWriter.new "POST") r := by
  simp [serve, ProductHandler.ServeHTTP, hm]

theorem serve_put (u : String → Except String Product) (ph : ProductHandler) (r : Request)
    (hm : r.Method = "PUT" ∨ r.Method = "PATCH") :
    serve u ph r = ph.put u (ResponseWriter.new r.Method) r ∧ r.Method ≠ "HEAD" := by
  rcases hm with hm | hm <;> simp [serve, ProductHandler.ServeHTTP, hm]

/-! ## Update -/

/-- C3: with an id in range and a decoded patch `p`, the product at `id` gets the
name of `p` unless that is empty and the price of `p` unless that is zero, every
other position and the length stay as they were, the status is 201 and the body is
the JSON object of the patched product (whenever its price is a finite float, as all
seeded and decoded prices are). A zero price in the patch leaves the price as it
was, a non-zero one replaces it. -/
theorem put_is_sparse_patch (u : String → Except String Product) (ph : ProductHandler)
    (r : Request) (id : Int) (body : String) (p : Product)
    (hm : r.Method = "PUT" ∨ r.Method = "PATCH") (hid : idFromUrl r = .ok id)
    (h0 : 0 ≤ id) (h1 : id < ph.products.length) (hb : r.Body = .ok body)
    (hct : r.ContentType = "application/json") (hu : u body = .ok p) :
    ∃ old patched : Product,
      ph.products[id.toNat]? = some old ∧
      patched.Name = (if p.Name = "" then old.Name else p.Name) ∧
      patched.Price = (if p.Price.isZero then old.Price else p.Price) ∧
      (serve u ph r).2.products[id.toNat]? = some patched ∧
      (serve u ph r).2.products.length = ph.products.length ∧
      (∀ j, j ≠ id.toNat → (serve u ph r).2.products[j]? = ph.products[j]?) ∧
      (serve u ph r).1.status = 201 ∧
      (patched.Price.isFinite = true → (serve u ph r).1.body = [.object patched.members]) := by
  have hi : id.toNat < ph.products.length := by omega
  have hng : ¬ (id ≥ ph.products.length ∨ id < 0) := by omega
  obtain ⟨hs, hhead⟩ := serve_put u ph r hm
  have hold : ph.products.getD id.toNat Product.zeroValue = ph.products[id.toNat] := by
    simp [List.getD_eq_getElem?_getD, List.getElem?_eq_getElem hi]
  refine ⟨ph.products[id.toNat],
    (if ¬ p.Price.isZero = true then
        { (if p.Name ≠ "" then { ph.products[id.toNat] with Name := p.Name }
            else ph.products[id.toNat]) with Price := p.Price }
      else (if p.Name ≠ "" then { ph.products[id.toNat] with Name := p.Name }
            else ph.products[id.toNat])),
    List.getElem?_eq_getElem hi, ?_, ?_, ?_⟩
  · by_cases hn : p.Name = "" <;> by_cases hz : p.Price.isZero = true <;> simp [hn, hz]
  · by_cases hn : p.Name = "" <;> by_cases hz : p.Price.isZero = true <;> simp [hn, hz]
  · rw [hs]
    simp only [ProductHandler.put, hid, hb, hct, hu, hng, if_false, ne_eq, not_true_eq_false,
      hold]
    refine ⟨?_, ?_, ?_, ?_, ?_⟩
    · rw [List.getElem?_set_self hi]
    · simp
    · intro j hj
      rw [List.getElem?_set_ne (Ne.symm hj)]
    · exact respondWithJSON_status _ _ _
    · intro hfin
      refine respondWithJSON_body _ _ _ _ ?_ (by decide) hhead
      simp only [jsonMarshal]
      rw [if_pos hfin]

/-- C3, on the seeded store: `PUT /products/1` with the patch `("Tea", 42)`; a patch
that only carries the price 42 sets the price and keeps the name, and a patch that
only carries the price 0 changes nothing. -/
theorem put_is_sparse_patch_witness :
    (serve (decodePrice f64_42) newProductHandler (request "PUT" "/products/1")).2.products
        = [⟨"Shoes", f64_25⟩, ⟨"Webcam", f64_42⟩, ⟨"Mic", f64_20⟩] ∧
    (serve (decodePrice Float64.zero) newProductHandler (request "PUT" "/products/1")).2.products
        = [⟨"Shoes", f64_25⟩, ⟨"Webcam", f64_50⟩, ⟨"Mic", f64_20⟩] ∧
    ∃ old patched : Product,
      newProductHandler.products[(1 : Int).toNat]? = some old ∧
      patched.Name = (if (⟨"Tea", f64_42⟩ : Product).Name = "" then old.Name
        else (⟨"Tea", f64_42⟩ : Product).Name) ∧
      patched.Price = (if (⟨"Tea", f64_42⟩ : Product).Price.isZero then old.Price
        else (⟨"Tea", f64_42⟩ : Product).Price) ∧
      (serve decodeTea newProductHandler (request "PUT" "/products/1")).2.products[(1 : Int).toNat]?
        = some patched ∧
      (serve decodeTea newProductHandler (request "PUT" "/products/1")).2.products.length
        = newProductHandler.products.length ∧
      (∀ j, j ≠ (1 : Int).toNat →
        (serve decodeTea newProductHandler (request "PUT" "/products/1")).2.products[j]?
          = newProductHandler.products[j]?) ∧
      (serve decodeTea newProductHandler (request "PUT" "/products/1")).1.status = 201 ∧
      (patched.Price.isFinite = true →
        (serve decodeTea newProductHandler (request "PUT" "/products/1")).1.body
          = [.object patched.members]) :=
  ⟨by decide, by decide,
    put_is_sparse_patch decodeTea newProductHandler (request "PUT" "/products/1") 1 ""
      ⟨"Tea", f64_42⟩ (by decide) (by decide) (by decide) (by decide) rfl rfl rfl⟩

/-! ## Create, then get -/

/-- C4: a create with a decoded product `p` appends `p` (the store grows by one and
every earlier position keeps its product) and answers 201 with `p` as body; a get
for the id that was the length before the create then answers 200 with `p` and
leaves the store as the create left it. -/
theorem create_appends_then_get_returns (u : String → Except String Product)
    (ph : ProductHandler) (r r2 : Request) (body : String) (p : Product)
    (hm : r.Method = "POST") (hb : r.Body = .ok body)
    (hct : r.ContentType = "application/json") (hu : u body = .ok p)
    (hfin : p.Price.isFinite = true)
    (hm2 : r2.Method = "GET") (hid2 : idFromUrl r2 = .ok (ph.products.length : Int)) :
    (serve u ph r).2.products = ph.products ++ [p] ∧
    (serve u ph r).2.products.length = ph.products.length + 1 ∧
    (∀ j, j < ph.products.length → (serve u ph r).2.products[j]? = ph.products[j]?) ∧
    (serve u ph r).1.status = 201 ∧
    (serve u ph r).1.body = [.object p.members] ∧
    (serve u (serve u ph r).2 r2).1.status = 200 ∧
    (serve u (serve u ph r).2 r2).1.body = [.object p.members] ∧
    (serve u (serve u ph r).2 r2).2 = (serve u ph r).2 := by
  have hmar : jsonMarshal (.product p) = .ok (.object p.members) := by
    simp only [jsonMarshal]
    rw [if_pos hfin]
  have hpost : serve u ph r
      = (respondWithJSON (ResponseWriter.new "POST") 201 (.product p),
          { ph with products := ph.products ++ [p] }) := by
    rw [serve_post u ph r hm]
    simp [ProductHandler.post, hb, hct, hu]
  have hget : serve u { ph with products := ph.products ++ [p] } r2
      = (respondWithJSON (ResponseWriter.new "GET") 200 (.product p),
          { ph with products := ph.products ++ [p] }) := by
    rw [serve_get u _ r2 hm2]
    have hng : ¬ ((ph.products.length : Int) ≥ ((ph.products ++ [p]).length : Int)
        ∨ (ph.products.length : Int) < 0) := by
      simp only [List.length_append, List.length_singleton]; omega
    simp only [ProductHandler.get, hid2, hng, if_false, Int.toNat_ofNat]
    simp [List.getD_eq_getElem?_getD]
  rw [hpost]
  dsimp only
  rw [hget]
  refine ⟨rfl, by simp, ?_, respondWithJSON_status _ _ _,
    respondWithJSON_body _ _ _ _ hmar (by decide) (by decide),
    respondWithJSON_status _ _ _,
    respondWithJSON_body _ _ _ _ hmar (by decide) (by decide), rfl⟩
  intro j hj
  simp [List.getElem?_append_left hj]

/-- C4, on the seeded store: `POST /products` with `("Tea", 42)`, then
`GET /products/3`. -/
theorem create_appends_then_get_returns_witness :
    (serve decodeTea newProductHandler (request "POST" "/products")).2.products
      = newProductHandler.products ++ [⟨"Tea", f64_42⟩] ∧
    (serve decodeTea newProductHandler (request "POST" "/products")).2.products.length
      = newProductHandler.products.length + 1 ∧
    (∀ j, j < newProductHandler.products.length →
      (serve decodeTea newProductHandler (request "POST" "/products")).2.products[j]?
        = newProductHandler.products[j]?) ∧
    (serve decodeTea newProductHandler (request "POST" "/products")).1.status = 201 ∧
    (serve decodeTea newProductHandler (request "POST" "/products")).1.body
      = [.object (⟨"Tea", f64_42⟩ : Product).members] ∧
    (serve decodeTea (serve decodeTea newProductHandler (request "POST" "/products")).2
      (request "GET" "/products/3")).1.status = 200 ∧
    (serve decodeTea (serve decodeTea newProductHandler (request "POST" "/products")).2
      (request "GET" "/products/3")).1.body = [.object (⟨"Tea", f64_42⟩ : Product).members] ∧
    (serve decodeTea (serve decodeTea newProductHandler (request "POST" "/products")).2
      (request "GET" "/products/3")).2
      = (serve decodeTea newProductHandler (request "POST" "/products")).2 :=
  create_appends_then_get_returns decodeTea newProductHandler (request "POST" "/products")
    (request "GET" "/products/3") "" ⟨"Tea", f64_42⟩ (by decide) rfl rfl rfl (by decide)
    (by decide) (by decide)

/-! ## Ids out of range -/

/-- C5: when the id of the URL is negative or not below the length, a get, a delete
and an update (with a body that was read, the JSON content type and a decoded patch)
each answer 404 with the body `{"error": "not found"}` and leave the store as it
was. -/
theorem out_of_range_id_not_found (u : String → Except String Product) (ph : ProductHandler)
    (r : Request) (id : Int) (hid : idFromUrl r = .ok id)
    (hr : id < 0 ∨ id ≥ ph.products.length) :
    (r.Method = "GET" ∨ r.Method = "DELETE" ∨
      ((r.Method = "PUT" ∨ r.Method = "PATCH") ∧ r.ContentType = "application/json" ∧
        ∃ body p, r.Body = .ok body ∧ u body = .ok p)) →
    (serve u ph r).1.status = 404 ∧
    (serve u ph r).1.body = [.object [("error", .str "not found")]] ∧
    (serve u ph r).2 = ph := by
  have hng : (id ≥ ph.products.length ∨ id < 0) := by omega
  rintro (hm | hm | ⟨hm, hct, body, p, hb, hu⟩)
  · rw [serve_get u ph r hm]
    simp only [ProductHandler.get, hid, hng, if_true]
    exact ⟨respondWithJSON_status _ _ _, respondWithError_body _ _ _ (by decide) (by decide),
      trivial⟩
  · rw [serve_delete u ph r hm]
    simp only [ProductHandler.delete, hid, hng, if_true]
    exact ⟨respondWithJSON_status _ _ _, respondWithError_body _ _ _ (by decide) (by decide),
      trivial⟩
  · obtain ⟨hs, hhead⟩ := serve_put u ph r hm
    rw [hs]
    simp only [ProductHandler.put, hid, hb, hct, hu, hng, if_true, ne_eq, not_true_eq_false,
      if_false]
    exact ⟨respondWithJSON_status _ _ _, respondWithError_body _ _ _ (by decide) hhead, trivial⟩

/-- C5, on the seeded store: `GET /products/99` is not found. -/
theorem out_of_range_id_not_found_witness :
    (serve decodeTea newProductHandler (request "GET" "/products/99")).1.status = 404 ∧
    (serve decodeTea newProductHandler (request "GET" "/products/99")).1.body
      = [.object [("error", .str "not found")]] ∧
    (serve decodeTea newProductHandler (request "GET" "/products/99")).2 = newProductHandler :=
  out_of_range_id_not_found decodeTea newProductHandler (request "GET" "/products/99") 99
    (by decide) (by decide) (Or.inl rfl)

/-! ## The response of a delete -/

/-- C8: a delete with an id in range answers with status 204 and a body of zero
bytes. The handler does pass the JSON text of the empty string (the two quote
characters) to `Write`; with status 204 the writer refuses it, so it is not part of
the response. -/
theorem delete_responds_204_without_body (u : String → Except String Product)
    (ph : ProductHandler) (r : Request) (id : Int) (hm : r.Method = "DELETE")
    (hid : idFromUrl r = .ok id) (h0 : 0 ≤ id) (h1 : id < ph.products.length) :
    (serve u ph r).1.status = 204 ∧
    (serve u ph r).1.body = [] ∧
    (serve u ph r).1.refused = [.scalar (.str "")] := by
  have hng : ¬ (id ≥ ph.products.length ∨ id < 0) := by omega
  rw [serve_delete u ph r hm]
  simp only [ProductHandler.delete, hid, hng, if_false]
  exact ⟨respondWithJSON_status _ _ _, respondWithJSON_refused _ _ _ _ rfl (by decide)⟩

/-- C8, on the seeded store: `DELETE /products/0`. -/
theorem delete_responds_204_without_body_witness :
    (serve decodeTea newProductHandler (request "DELETE" "/products/0")).1.status = 204 ∧
    (serve decodeTea newProductHandler (request "DELETE" "/products/0")).1.body = [] ∧
    (serve decodeTea newProductHandler (request "DELETE" "/products/0")).1.refused
      = [.scalar (.str "")] :=
  delete_responds_204_without_body decodeTea newProductHandler
    (request "DELETE" "/products/0") 0 (by decide) (by decide) (by decide) (by decide)

/-! ## A get whose URL yields no id -/

/-- Whenever `idFromUrl` fails, for an absent id as for an unparsable one, a get
answers 200 and leaves the store as it was; with finite prices the body is the
array of all products. -/
theorem get_without_id_lists_all (u : String → Except String Product) (ph : ProductHandler)
    (r : Request) (e : String) (hm : r.Method = "GET") (hid : idFromUrl r = .error e) :
    (serve u ph r).1.status = 200 ∧ (serve u ph r).2 = ph ∧
    ((ph.products.all fun p => p.Price.isFinite) = true →
      (serve u ph r).1.body = [.array (ph.products.map Product.members)]) := by
  rw [serve_get u ph r hm]
  simp only [ProductHandler.get, hid]
  refine ⟨respondWithJSON_status _ _ _, trivial, fun hfin => ?_⟩
  refine respondWithJSON_body _ _ _ _ ?_ (by decide) (by decide)
  simp only [jsonMarshal]
  rw [if_pos hfin]

/-- For C6: on the seeded store, `GET /products/abc` (the segment `abc` is no
integer) is answered with status 200 and the list of all three products, not with
404, while `PUT` and `DELETE` on the same URL are answered with 404. -/
theorem get_unparsable_id_answers_200_with_list :
    Atoi "abc".toList = .error "invalid syntax" ∧
    idFromUrl (request "GET" "/products/abc") = .error "not found" ∧
    (serve decodeTea newProductHandler (request "GET" "/products/abc")).1.status = 200 ∧
    (serve decodeTea newProductHandler (request "GET" "/products/abc")).1.body
      = [.array [[("name", .str "Shoes"), ("price", .num f64_25)],
                 [("name", .str "Webcam"), ("price", .num f64_50)],
                 [("name", .str "Mic"), ("price", .num f64_20)]]] ∧
    (serve decodeTea newProductHandler (request "PUT" "/products/abc")).1.status = 404 ∧
    (serve decodeTea newProductHandler (request "DELETE" "/products/abc")).1.status = 404 := by
  decide

/-! ## Error bodies -/

/-- Every answer with status 400, 404, 415 or 500 has a body of the form
`{"error": msg}`. -/
theorem error_status_has_error_object (u : String → Except String Product)
    (ph : ProductHandler) (r : Request)
    (hs : (serve u ph r).1.status = 400 ∨ (serve u ph r).1.status = 404 ∨
      (serve u ph r).1.status = 415 ∨ (serve u ph r).1.status = 500) :
    ∃ msg, (serve u ph r).1.body = [.object [("error", .str msg)]] := by
  have key : ∀ (m : String) (code : Nat) (msg : String), m ≠ "HEAD" →
      bodyAllowedForStatus code = true →
      ∃ msg', (respondWithError (ResponseWriter.new m) code msg).body
        = [.object [("error", .str msg')]] :=
    fun m code msg hm hc => ⟨msg, respondWithError_body m code msg hc hm⟩
  have st : ∀ (m : String) (code : Nat) (d : Data),
      (respondWithJSON (ResponseWriter.new m) code d).status = code :=
    respondWithJSON_status
  by_cases hG : r.Method = "GET"
  · rw [serve_get u ph r hG] at hs ⊢
    simp only [ProductHandler.get] at hs ⊢
    repeat' (first | split at hs | split_ifs at hs ⊢)
    all_goals first | exact key _ _ _ (by decide) (by decide) | simp [st] at hs
  by_cases hP : r.Method = "POST"
  · rw [serve_post u ph r hP] at hs ⊢
    simp only [ProductHandler.post] at hs ⊢
    repeat' (first | split at hs | split_ifs at hs ⊢)
    all_goals first | exact key _ _ _ (by decide) (by decide) | simp [st] at hs
  by_cases hU : r.Method = "PUT" ∨ r.Method = "PATCH"
  · obtain ⟨e, hhead⟩ := serve_put u ph r hU
    rw [e] at hs ⊢
    simp only [ProductHandler.put] at hs ⊢
    repeat' (first | split at hs | split_ifs at hs ⊢)
    all_goals first | exact key _ _ _ hhead (by decide) | simp [st] at hs
  by_cases hD : r.Method = "DELETE"
  · rw [serve_delete u ph r hD] at hs ⊢
    simp only [ProductHandler.delete] at hs ⊢
    repeat' (first | split at hs | split_ifs at hs ⊢)
    all_goals first | exact key _ _ _ (by decide) (by decide) | simp [st] at hs
  · simp only [not_or] at hU
    simp [serve, ProductHandler.ServeHTTP, hG, hP, hU.1, hU.2, hD, st] at hs

/-- For C7: on the seeded store, a request with the method `OPTIONS` is answered
with status 405 and the bare JSON string `"invalid method"` as body, which is not an
object `{"error": msg}` for any message. -/
theorem method_not_allowed_body_is_bare_string :
    (serve decodeTea newProductHandler (request "OPTIONS" "/products")).1.status = 405 ∧
    (serve decodeTea newProductHandler (request "OPTIONS" "/products")).1.body
      = [.scalar (.str "invalid method")] ∧
    ∀ msg, (serve decodeTea newProductHandler (request "OPTIONS" "/products")).1.body
      ≠ [.object [("error", .str msg)]] := by
  refine ⟨by decide, by decide, fun msg h => ?_⟩
  have e : (serve decodeTea newProductHandler (request "OPTIONS" "/products")).1.body
      = [.scalar (.str "invalid method")] := by decide
  rw [e] at h
  simp at h

/-! ## The expiry claim -/

/-- The expiry claim is 60 or 61 seconds after the second of issue: one minute and
30 nanoseconds are added, so the second changes only by the carry of the
nanoseconds. -/
theorem GenerateJWT_exp_is_one_minute_later (now : Time) :
    (GenerateJWT.claims now).exp = now.Unix + 60 ∨
    (GenerateJWT.claims now).exp = now.Unix + 61 := by
  simp only [GenerateJWT.claims, Time.Add, Time.Unix, Minute, Second, Millisecond, Microsecond,
    Nanosecond, Int.fdiv_eq_ediv _ (by decide : (0 : Int) ≤ 1000000000)]
  omega

/-- For C10: a token issued at Unix time 1700000000 (to the nanosecond) carries the
expiry 1700000060, one minute later and not ninety seconds later. -/
theorem GenerateJWT_exp_at_1700000000 :
    (⟨1700000000 * 1000000000⟩ : Time).Unix = 1700000000 ∧
    (GenerateJWT.claims ⟨1700000000 * 1000000000⟩).exp = 1700000060 ∧
    (GenerateJWT.claims ⟨1700000000 * 1000000000⟩).exp ≠ 1700000000 + 90 := by
  decide

/-! ## Concurrent creates -/

/-- Replacing the element at a valid position, seen as a split of the list. -/
theorem set_split (l : List Goroutine) (i : Nat) (g : Goroutine) (h : l[i]? = some g) :
    ∃ pre post, l = pre ++ g :: post ∧ ∀ g', l.set i g' = pre ++ g' :: post := by
  induction l generalizing i with
  | nil => simp at h
  | cons a t ih =>
    cases i with
    | zero =>
      simp only [List.getElem?_cons_zero, Option.some.injEq] at h
      subst h
      exact ⟨[], t, rfl, fun _ => rfl⟩
    | succ k =>
      simp only [List.getElem?_cons_succ] at h
      obtain ⟨pre, post, e, hset⟩ := ih k h
      refine ⟨a :: pre, post, by rw [e]; rfl, fun g' => ?_⟩
      rw [List.set_cons_succ, hset g']; rfl

/-- A step changes one goroutine and keeps its product. The cases list what the
goroutine did and what became of the mutex and the store. -/
theorem step_split (s s' : World) (i : Nat) (hs : s.step i = some s') :
    ∃ pre g post pc' w', s.goroutines = pre ++ g :: post ∧
      s'.goroutines = pre ++ { product := g.product, pc := pc', w := w' } :: post ∧
      ((g.pc = .atLock ∧ pc' = .atLoad ∧ w' = g.w ∧ s.locked = false ∧ s'.locked = true ∧
          s'.products = s.products) ∨
       (g.pc = .atLoad ∧ pc' = .atStore s.products ∧ w' = g.w ∧ s'.locked = s.locked ∧
          s'.products = s.products) ∨
       (∃ l, g.pc = .atStore l ∧ pc' = .atRespond ∧ w' = g.w ∧ s'.locked = s.locked ∧
          s'.products = l ++ [g.product]) ∨
       (g.pc = .atRespond ∧ pc' = .atUnlock ∧
          w' = respondWithJSON g.w 201 (.product g.product) ∧ s'.locked = s.locked ∧
          s'.products = s.products) ∨
       (g.pc = .atUnlock ∧ pc' = .done ∧ w' = g.w ∧ s'.locked = false ∧
          s'.products = s.products)) := by
  unfold World.step at hs
  cases hg : s.goroutines[i]? with
  | none => simp [hg] at hs
  | some g =>
    obtain ⟨pre, post, hsplit, hset⟩ := set_split _ _ _ hg
    simp only [hg] at hs
    cases hpc : g.pc with
    | atLock =>
      simp only [hpc] at hs
      split at hs
      · exact absurd hs (by simp)
      · rename_i hl
        simp only [Option.some.injEq] at hs
        subst hs
        exact ⟨pre, g, post, _, _, hsplit, hset _,
          Or.inl ⟨hpc, rfl, rfl, by simpa using hl, rfl, rfl⟩⟩
    | atLoad =>
      simp only [hpc, Option.some.injEq] at hs
      subst hs
      exact ⟨pre, g, post, _, _, hsplit, hset _, Or.inr (Or.inl ⟨hpc, rfl, rfl, rfl, rfl⟩)⟩
    | atStore l =>
      simp only [hpc, Option.some.injEq] at hs
      subst hs
      exact ⟨pre, g, post, _, _, hsplit, hset _,
        Or.inr (Or.inr (Or.inl ⟨l, hpc, rfl, rfl, rfl, rfl⟩))⟩
    | atRespond =>
      simp only [hpc, Option.some.injEq] at hs
      subst hs
      exact ⟨pre, g, post, _, _, hsplit, hset _,
        Or.inr (Or.inr (Or.inr (Or.inl ⟨hpc, rfl, rfl, rfl, rfl⟩)))⟩
    | atUnlock =>
      simp only [hpc, Option.some.injEq] at hs
      subst hs
      exact ⟨pre, g, post, _, _, hsplit, hset _,
        Or.inr (Or.inr (Or.inr (Or.inr ⟨hpc, rfl, rfl, rfl, rfl⟩)))⟩
    | done =>
      simp [hpc] at hs

/-- No goroutine about to assign its append is among goroutines that do not hold
the lock. -/
theorem not_atStore_of_countP_zero (gs : List Goroutine)
    (h : gs.countP Goroutine.holdsLock = 0) (x : Goroutine) (hx : x ∈ gs) (l : Products) :
    x.pc ≠ .atStore l := by
  intro hpc
  have := (List.countP_eq_zero.mp h) x hx
  simp [Goroutine.holdsLock, hpc] at this

/-- Every step keeps the invariant. -/
theorem inv_step (ph : ProductHandler) (payloads : List Product) (s s' : World) (i : Nat)
    (h : World.Inv ph payloads s) (hs : s.step i = some s') : World.Inv ph payloads s' := by
  obtain ⟨pre, g, post, pc', w', hgs, hgs', hcase⟩ := step_split s s' i hs
  have hpay : s'.goroutines.map (fun g => g.product) = payloads := by
    rw [← h.payloads_eq, hgs, hgs']; simp
  have hh := h.holders
  rw [hgs] at hh
  simp only [List.countP_append, List.countP_cons] at hh
  obtain ⟨l₀, hl₀, hperm⟩ := h.store
  rw [hgs] at hperm
  simp only [List.filter_append, List.filter_cons, List.map_append] at hperm
  have hld := h.loaded
  have hw := h.writer
  rw [hgs] at hld hw
  have hwg := hw g (by simp)
  have hmem : ∀ x, x ∈ pre ∨ x ∈ post → x ∈ pre ++ g :: post := by
    intro x hx; rcases hx with hx | hx <;> simp [hx]
  rcases hcase with ⟨hpc, rfl, rfl, hl, hl', hp'⟩ | ⟨hpc, rfl, rfl, hl', hp'⟩ |
    ⟨l, hpc, rfl, rfl, hl', hp'⟩ | ⟨hpc, rfl, rfl, hl', hp'⟩ | ⟨hpc, rfl, rfl, hl', hp'⟩
  · -- ph.Lock()
    refine ⟨hpay, ?_, ⟨l₀, by rw [hp', hl₀], ?_⟩, ?_, ?_⟩
    · rw [hgs', hl']
      simp only [List.countP_append, List.countP_cons, Goroutine.holdsLock, hpc, hl] at hh ⊢
      simp only [Bool.false_eq_true, if_false, if_true] at hh ⊢
      omega
    · rw [hgs']
      simpa [List.filter_append, List.filter_cons, Goroutine.hasAppended, hpc] using hperm
    · intro x hx l hxl
      rw [hgs'] at hx
      rw [hp']
      simp only [List.mem_append, List.mem_cons] at hx
      rcases hx with hx | rfl | hx
      · exact hld x (hmem x (Or.inl hx)) l hxl
      · simp at hxl
      · exact hld x (hmem x (Or.inr hx)) l hxl
    · intro x hx
      rw [hgs'] at hx
      simp only [List.mem_append, List.mem_cons] at hx
      rcases hx with hx | rfl | hx
      · exact hw x (hmem x (Or.inl hx))
      · simpa [hpc] using hwg
      · exact hw x (hmem x (Or.inr hx))
  · -- read ph.products
    refine ⟨hpay, ?_, ⟨l₀, by rw [hp', hl₀], ?_⟩, ?_, ?_⟩
    · rw [hgs', hl']
      simp only [List.countP_append, List.countP_cons, Goroutine.holdsLock, hpc] at hh ⊢
      exact hh
    · rw [hgs']
      simpa [List.filter_append, List.filter_cons, Goroutine.hasAppended, hpc] using hperm
    · intro x hx l hxl
      rw [hgs'] at hx
      rw [hp']
      simp only [List.mem_append, List.mem_cons] at hx
      rcases hx with hx | rfl | hx
      · exact hld x (hmem x (Or.inl hx)) l hxl
      · simpa using hxl.symm
      · exact hld x (hmem x (Or.inr hx)) l hxl
    · intro x hx
      rw [hgs'] at hx
      simp only [List.mem_append, List.mem_cons] at hx
      rcases hx with hx | rfl | hx
      · exact hw x (hmem x (Or.inl hx))
      · simpa [hpc] using hwg
      · exact hw x (hmem x (Or.inr hx))
  · -- ph.products = append(loaded, product)
    have hl_eq : l = s.products := hld g (by simp) l hpc
    have hzero : pre.countP Goroutine.holdsLock = 0 ∧ post.countP Goroutine.holdsLock = 0 := by
      simp only [Goroutine.holdsLock, hpc, if_true] at hh
      have hb : (if s.locked = true then 1 else 0) ≤ 1 := by split <;> omega
      generalize (if s.locked = true then 1 else 0) = n at hh hb
      omega
    refine ⟨hpay, ?_, ⟨l₀ ++ [g.product], by rw [hp', hl_eq, hl₀, List.append_assoc], ?_⟩,
      ?_, ?_⟩
    · rw [hgs', hl']
      simp only [List.countP_append, List.countP_cons, Goroutine.holdsLock, hpc] at hh ⊢
      exact hh
    · rw [hgs']
      simp only [List.filter_append, List.filter_cons, Goroutine.hasAppended, hpc,
        List.map_append] at hperm ⊢
      simp only [Bool.false_eq_true, if_false, if_true, List.map_cons] at hperm ⊢
      exact ((List.perm_append_singleton _ _).trans (hperm.cons _)).trans
        List.perm_middle.symm
    · intro x hx l' hxl
      rw [hgs'] at hx
      simp only [List.mem_append, List.mem_cons] at hx
      rcases hx with hx | rfl | hx
      · exact absurd hxl (not_atStore_of_countP_zero pre hzero.1 x hx l')
      · simp at hxl
      · exact absurd hxl (not_atStore_of_countP_zero post hzero.2 x hx l')
    · intro x hx
      rw [hgs'] at hx
      simp only [List.mem_append, List.mem_cons] at hx
      rcases hx with hx | rfl | hx
      · exact hw x (hmem x (Or.inl hx))
      · simpa [hpc] using hwg
      · exact hw x (hmem x (Or.inr hx))
  · -- respondWithJSON(w, http.StatusCreated, product)
    refine ⟨hpay, ?_, ⟨l₀, by rw [hp', hl₀], ?_⟩, ?_, ?_⟩
    · rw [hgs', hl']
      simp only [List.countP_append, List.countP_cons, Goroutine.holdsLock, hpc] at hh ⊢
      exact hh
    · rw [hgs']
      simpa [List.filter_append, List.filter_cons, Goroutine.hasAppended, hpc] using hperm
    · intro x hx l hxl
      rw [hgs'] at hx
      rw [hp']
      simp only [List.mem_append, List.mem_cons] at hx
      rcases hx with hx | rfl | hx
      · exact hld x (hmem x (Or.inl hx)) l hxl
      · simp at hxl
      · exact hld x (hmem x (Or.inr hx)) l hxl
    · intro x hx
      rw [hgs'] at hx
      simp only [List.mem_append, List.mem_cons] at hx
      rcases hx with hx | rfl | hx
      · exact hw x (hmem x (Or.inl hx))
      · simp only [hpc] at hwg
        simp [hwg]
      · exact hw x (hmem x (Or.inr hx))
  · -- the deferred ph.Unlock()
    refine ⟨hpay, ?_, ⟨l₀, by rw [hp', hl₀], ?_⟩, ?_, ?_⟩
    · rw [hgs', hl']
      simp only [List.countP_append, List.countP_cons, Goroutine.holdsLock, hpc, if_true,
        Bool.false_eq_true, if_false] at hh ⊢
      have hb : (if s.locked = true then 1 else 0) ≤ 1 := by split <;> omega
      generalize (if s.locked = true then 1 else 0) = n at hh hb
      omega
    · rw [hgs']
      simpa [List.filter_append, List.filter_cons, Goroutine.hasAppended, hpc] using hperm
    · intro x hx l hxl
      rw [hgs'] at hx
      rw [hp']
      simp only [List.mem_append, List.mem_cons] at hx
      rcases hx with hx | rfl | hx
      · exact hld x (hmem x (Or.inl hx)) l hxl
      · simp at hxl
      · exact hld x (hmem x (Or.inr hx)) l hxl
    · intro x hx
      rw [hgs'] at hx
      simp only [List.mem_append, List.mem_cons] at hx
      rcases hx with hx | rfl | hx
      · exact hw x (hmem x (Or.inl hx))
      · simpa [hpc] using hwg
      · exact hw x (hmem x (Or.inr hx))

/-- The start world satisfies the invariant. -/
theorem inv_start (ph : ProductHandler) (payloads : List Product) :
    World.Inv ph payloads (World.start ph payloads) := by
  refine ⟨?_, ?_, ⟨[], by simp [World.start], ?_⟩, ?_, ?_⟩
  · simp [World.start, Function.comp_def]
  · simp [World.start, List.countP_eq_zero, Goroutine.holdsLock]
  · have : (World.start ph payloads).goroutines.filter Goroutine.hasAppended = [] := by
      simp [World.start, List.filter_eq_nil_iff, Goroutine.hasAppended]
    rw [this]; exact List.Perm.refl _
  · intro g hg l hl
    simp only [World.start, List.mem_map] at hg
    obtain ⟨p, _, rfl⟩ := hg
    simp at hl
  · intro g hg
    simp only [World.start, List.mem_map] at hg
    obtain ⟨p, _, rfl⟩ := hg
    simp

/-- Every interleaving keeps the invariant and takes as many steps as the
goroutines have run statements. -/
theorem inv_run (ph : ProductHandler) (payloads : List Product) (schedule : List Nat) :
    ∀ s s' : World, World.Inv ph payloads s → s.run schedule = some s' →
      World.Inv ph payloads s' ∧ s'.progress = s.progress + schedule.length := by
  induction schedule with
  | nil =>
    intro s s' h hr
    simp only [World.run, Option.some.injEq] at hr
    subst hr
    exact ⟨h, rfl⟩
  | cons i rest ih =>
    intro s s' h hr
    simp only [World.run] at hr
    cases hs : s.step i with
    | none => simp [hs] at hr
    | some s₁ =>
      simp only [hs] at hr
      obtain ⟨h', hp⟩ := ih s₁ s' (inv_step ph payloads s s₁ i h hs) hr
      refine ⟨h', ?_⟩
      have h1 : s₁.progress = s.progress + 1 := by
        obtain ⟨pre, g, post, pc', w', hgs, hgs', hcase⟩ := step_split s s₁ i hs
        simp only [World.progress, hgs, hgs', List.map_append, List.map_cons, List.sum_append,
          List.sum_cons]
        rcases hcase with ⟨hpc, rfl, _⟩ | ⟨hpc, rfl, _⟩ | ⟨l, hpc, rfl, _⟩ | ⟨hpc, rfl, _⟩ |
          ⟨hpc, rfl, _⟩ <;> simp only [Goroutine.progress, hpc] <;> omega
      rw [hp, h1, List.length_cons]; omega

/-- No goroutine has run more than its five statements. -/
theorem progress_le (gs : List Goroutine) :
    (gs.map Goroutine.progress).sum ≤ 5 * gs.length ∧
    ((gs.all fun g => g.pc = .done) = true → (gs.map Goroutine.progress).sum = 5 * gs.length) := by
  induction gs with
  | nil => simp
  | cons g t ih =>
    have hg : g.progress ≤ 5 ∧ (g.pc = .done → g.progress = 5) := by
      unfold Goroutine.progress
      cases g.pc <;> simp
    simp only [List.map_cons, List.sum_cons, List.length_cons, List.all_cons, Bool.and_eq_true,
      decide_eq_true_eq]
    refine ⟨by omega, fun ⟨h1, h2⟩ => ?_⟩
    have := ih.2 h2
    have := hg.2 h1
    omega

/-- A world that satisfies the invariant and has an unfinished goroutine has a
goroutine that can take a step. -/
theorem inv_not_stuck (ph : ProductHandler) (payloads : List Product) (s : World)
    (h : World.Inv ph payloads s) (hd : s.allDone = false) : ∃ i, (s.step i).isSome = true := by
  have hex : ∃ g ∈ s.goroutines, g.pc ≠ .done := by
    by_contra hcon
    simp only [not_exists, not_and, not_not] at hcon
    have : s.allDone = true := by
      simp only [World.allDone, List.all_eq_true, decide_eq_true_eq]
      exact hcon
    rw [this] at hd
    exact absurd hd (by simp)
  obtain ⟨g, hg, hgd⟩ := hex
  have hh := h.holders
  cases hL : s.locked with
  | true =>
    rw [hL] at hh
    have hpos : 0 < s.goroutines.countP Goroutine.holdsLock := by rw [hh]; simp
    obtain ⟨x, hx, hxl⟩ := List.countP_pos_iff.mp hpos
    obtain ⟨j, hj⟩ := List.mem_iff_getElem?.mp hx
    refine ⟨j, ?_⟩
    unfold World.step
    simp only [hj]
    unfold Goroutine.holdsLock at hxl
    cases hpc : x.pc <;> simp [hpc] at hxl ⊢
  | false =>
    rw [hL] at hh
    simp only [Bool.false_eq_true, if_false] at hh
    have hnl := (List.countP_eq_zero.mp hh) g hg
    obtain ⟨j, hj⟩ := List.mem_iff_getElem?.mp hg
    refine ⟨j, ?_⟩
    unfold World.step
    simp only [hj]
    unfold Goroutine.holdsLock at hnl
    cases hpc : g.pc <;> simp [hpc, hL] at hnl hgd ⊢

/-- At the start no goroutine has run a statement. -/
theorem progress_start (ph : ProductHandler) (payloads : List Product) :
    (World.start ph payloads).progress = 0 := by
  simp only [World.progress, World.start, List.map_map]
  induction payloads with
  | nil => rfl
  | cons p t ih => simpa [Goroutine.progress] using ih

/-- C9: take any store and any payloads, one goroutine per payload running `post`
from its `ph.Lock()` on, and any interleaving of their statements. The interleaving
has at most five steps per goroutine; as long as a goroutine is unfinished some
goroutine can step (no deadlock); and once all have returned, the store is the
initial store followed by a permutation of the payloads: its length is the initial
length plus the number of creates, every payload is in it, the mutex is free and
every goroutine has answered 201 (with its product as body when the price is a
finite float). -/
theorem concurrent_creates_lose_no_write (ph : ProductHandler) (payloads : List Product)
    (schedule : List Nat) (s : World)
    (hrun : (World.start ph payloads).run schedule = some s) :
    schedule.length ≤ 5 * payloads.length ∧
    (s.allDone = false → ∃ i, (s.step i).isSome = true) ∧
    (s.allDone = true →
      schedule.length = 5 * payloads.length ∧
      s.products.length = ph.products.length + payloads.length ∧
      (∃ l, s.products = ph.products ++ l ∧ l.Perm payloads) ∧
      (∀ p ∈ payloads, p ∈ s.products) ∧
      s.locked = false ∧
      ∀ g ∈ s.goroutines, g.w.status = 201 ∧
        (g.product.Price.isFinite = true → g.w.body = [.object g.product.members])) := by
  obtain ⟨hinv, hprog⟩ := inv_run ph payloads schedule _ s (inv_start ph payloads) hrun
  have hstart := progress_start ph payloads
  have hlen : s.goroutines.length = payloads.length := by
    rw [← hinv.payloads_eq, List.length_map]
  rw [hstart, Nat.zero_add] at hprog
  have hle := progress_le s.goroutines
  refine ⟨?_, inv_not_stuck ph payloads s hinv, fun hdone => ?_⟩
  · rw [← hprog, ← hlen]; exact hle.1
  · have hall : ∀ g ∈ s.goroutines, g.pc = .done := by
      simpa [World.allDone] using hdone
    have hfilter : s.goroutines.filter Goroutine.hasAppended = s.goroutines := by
      rw [List.filter_eq_self]
      intro g hg
      simp [Goroutine.hasAppended, hall g hg]
    obtain ⟨l, hl, hperm⟩ := hinv.store
    rw [hfilter, hinv.payloads_eq] at hperm
    refine ⟨?_, ?_, ⟨l, hl, hperm⟩, ?_, ?_, ?_⟩
    · rw [← hprog, ← hlen]; exact hle.2 hdone
    · rw [hl, List.length_append, hperm.length_eq]
    · intro p hp
      rw [hl]
      exact List.mem_append_right _ (hperm.mem_iff.mpr hp)
    · have hh := hinv.holders
      have hz : s.goroutines.countP Goroutine.holdsLock = 0 := by
        rw [List.countP_eq_zero]
        intro g hg
        simp [Goroutine.holdsLock, hall g hg]
      rw [hz] at hh
      cases hL : s.locked with
      | false => rfl
      | true => simp [hL] at hh
    · intro g hg
      have hw := hinv.writer g hg
      simp only [hall g hg, or_true, if_true] at hw
      rw [hw]
      refine ⟨respondWithJSON_status _ _ _, fun hfin => ?_⟩
      refine respondWithJSON_body _ _ _ _ ?_ (by decide) (by decide)
      simp only [jsonMarshal]
      rw [if_pos hfin]

/-- C9, on the seeded store: two concurrent creates, `("Tea", 42)` and `("Mug", 20)`,
where the goroutine of the second runs first. The store ends as the seed followed by
Mug and Tea. -/
theorem concurrent_creates_lose_no_write_witness :
    twoCreatesEnd.products
      = [⟨"Shoes", f64_25⟩, ⟨"Webcam", f64_50⟩, ⟨"Mic", f64_20⟩, mug, tea] ∧
    (twoCreatesSchedule.length ≤ 5 * [tea, mug].length ∧
    (twoCreatesEnd.allDone = false → ∃ i, (twoCreatesEnd.step i).isSome = true) ∧
    (twoCreatesEnd.allDone = true →
      twoCreatesSchedule.length = 5 * [tea, mug].length ∧
      twoCreatesEnd.products.length = newProductHandler.products.length + [tea, mug].length ∧
      (∃ l, twoCreatesEnd.products = newProductHandler.products ++ l ∧ l.Perm [tea, mug]) ∧
      (∀ p ∈ [tea, mug], p ∈ twoCreatesEnd.products) ∧
      twoCreatesEnd.locked = false ∧
      ∀ g ∈ twoCreatesEnd.goroutines, g.w.status = 201 ∧
        (g.product.Price.isFinite = true → g.w.body = [.object g.product.members]))) :=
  ⟨by decide,
    concurrent_creates_lose_no_write newProductHandler [tea, mug] twoCreatesSchedule
      twoCreatesEnd (by decide)⟩

end SimpleGoService
